import Mathlib

/-!
Shallow embedding of the VantalShare chunked file-transfer protocol.

The repository contains two full iterations of the protocol:
* variant A (src/unnamed/part_000): ACK-gated streaming with messages
  HEADER / ACK / CHUNK; the receiver finalizes automatically once
  `receivedBytes >= size`.
* variant B (src/unnamed/part_001): explicit start/chunk/end streaming with
  messages file-start / stream-chunk / file-end and a debug log.

Files are modelled as lists of bytes (`List Nat`), binary chunks as
`List Nat`, the JS object maps keyed by file id as association lists, and
`Date.now()` as an externally supplied `Nat`.  Each JS event handler becomes
a pure state-transition function.
-/

set_option linter.unusedVariables false

/-- A binary buffer (JS ArrayBuffer / Blob contents): a list of bytes. -/
abbrev Bytes := List Nat

/-- `const CHUNK_SIZE = 16 * 1024` — identical in both variants
(part_000 line 267, part_001 line 271). -/
def CHUNK_SIZE : Nat := 16 * 1024

/-- Sum of the byte lengths of a list of chunks. -/
def sumLens (l : List Bytes) : Nat := (l.map List.length).sum

/-- `new Blob(chunks)` — concatenation of the buffered chunks in order
(part_000 line 172, part_001 line 190). -/
def blobConcat (chunks : List Bytes) : Bytes := chunks.flatten

/-- The chunk sequence produced by the sender's slicing loop: starting from
`offset`, repeatedly `file.slice(offset, offset + c)` and `offset += c` while
`offset < file.size` (part_000 lines 267-309, part_001 lines 271-325).
The `0 < c` conjunct is a termination guard; the code only ever uses
`c = CHUNK_SIZE`. -/
def sliceChunks (file : Bytes) (c : Nat) (offset : Nat) : List Bytes :=
  if h : offset < file.length ∧ 0 < c then
    (file.drop offset).take c :: sliceChunks file c (offset + c)
  else []
termination_by file.length - offset
decreasing_by simp_wf; omega

-- ---------------------------------------------------------------------------
-- Association-list model of the JS object maps `incomingFilesRef.current` /
-- `incomingBuffer.current`.
-- ---------------------------------------------------------------------------

/-- `m[k] = v` on a JS object modelled as an association list. -/
def setEntry {β : Type} : List (String × β) → String → β → List (String × β)
  | [], k, v => [(k, v)]
  | (k', v') :: rest, k, v =>
    if k' = k then (k, v) :: rest else (k', v') :: setEntry rest k v

/-- `m[k]` lookup on a JS object modelled as an association list. -/
def getEntry {β : Type} : List (String × β) → String → Option β
  | [], _ => none
  | (k', v') :: rest, k => if k' = k then some v' else getEntry rest k

/-- `delete m[k]` on a JS object modelled as an association list. -/
def removeEntry {β : Type} : List (String × β) → String → List (String × β)
  | [], _ => []
  | (k', v') :: rest, k =>
    if k' = k then rest else (k', v') :: removeEntry rest k

theorem getEntry_setEntry_self {β : Type} (m : List (String × β)) (k : String) (v : β) :
    getEntry (setEntry m k v) k = some v := by
  induction m with
  | nil => simp [setEntry, getEntry]
  | cons hd tl ih =>
    obtain ⟨k', v'⟩ := hd
    by_cases h : k' = k <;> simp [setEntry, getEntry, h, ih]

theorem getEntry_setEntry_ne {β : Type} (m : List (String × β)) (k k' : String) (v : β)
    (h : k' ≠ k) : getEntry (setEntry m k v) k' = getEntry m k' := by
  induction m with
  | nil => simp [setEntry, getEntry, Ne.symm h]
  | cons hd tl ih =>
    obtain ⟨k₀, v₀⟩ := hd
    by_cases hk : k₀ = k
    · subst hk
      simp [setEntry, getEntry, h, Ne.symm h]
    · simp [setEntry, getEntry, hk, ih]

theorem setEntry_setEntry {β : Type} (m : List (String × β)) (k : String) (v w : β) :
    setEntry (setEntry m k v) k w = setEntry m k w := by
  induction m with
  | nil => simp [setEntry]
  | cons hd tl ih =>
    obtain ⟨k₀, v₀⟩ := hd
    by_cases hk : k₀ = k <;> simp [setEntry, hk, ih]

-- ---------------------------------------------------------------------------
-- Variant A (src/unnamed/part_000): ACK-gated HEADER / CHUNK protocol.
-- ---------------------------------------------------------------------------

/-- Messages exchanged in variant A: `{type:'HEADER',...}`, `{type:'ACK',id}`,
`{type:'CHUNK',id,chunk}` (part_000 lines 114, 139, 143). -/
inductive MsgA where
  | header (id name : String) (size : Nat) (mime : String)
  | ack (id : String)
  | chunk (id : String) (payload : Bytes)
deriving DecidableEq, Repr

/-- One entry of `incomingFilesRef.current` (part_000 lines 118-125). -/
structure IncomingFileA where
  name : String
  size : Nat
  mime : String
  receivedBytes : Nat
  chunks : List Bytes
  lastUpdate : Nat
deriving DecidableEq, Repr

/-- Status of a UI file card: `'receiving'` or `'completed'`. -/
inductive FileStatusA where
  | receiving
  | completed
deriving DecidableEq, Repr

/-- One entry of the host's `files` UI state (part_000 lines 128-135).
`url` models the object URL of the finalized blob by its byte contents. -/
structure UIFileA where
  id : String
  name : String
  progress : Nat
  status : FileStatusA
  url : Option Bytes
deriving DecidableEq, Repr

/-- The host-side state of variant A: the buffer map, the UI `files` list,
the messages sent back over the connection (the ACKs), the `console.log`
output, and whether a connection is attached (`conn`). -/
structure HostA where
  incomingFiles : List (String × IncomingFileA)
  files : List UIFileA
  sentMsgs : List MsgA
  clogs : List String
  conn : Bool
deriving DecidableEq, Repr

/-- Fresh host state: `incomingFilesRef.current = {}`, `files = []`, with a
sender connected. -/
def initialHostA : HostA :=
  { incomingFiles := [], files := [], sentMsgs := [], clogs := [], conn := true }

/-- `fileMeta.chunks.push(chunk); fileMeta.receivedBytes += chunk.byteLength`
(part_000 lines 149-150 and part_001 lines 161-162). -/
def appendChunk (b : IncomingFileA) (payload : Bytes) : IncomingFileA :=
  { b with chunks := b.chunks ++ [payload],
           receivedBytes := b.receivedBytes + payload.length }

/-- `Math.min(100, Math.round((receivedBytes / size) * 100))` (part_000
line 155).  The floating-point round-half-up division is modelled as the
integer computation `(200*received + size) / (2*size)`; for `size = 0` the JS
expression is NaN, which never reaches the UI in a conforming run. -/
def progressPercent (received size : Nat) : Nat :=
  if size = 0 then 0 else min 100 ((200 * received + size) / (2 * size))

/-- `new Blob(meta.chunks)` + UI completion in variant A: marks the card
completed with the object URL and clears `chunks` to free memory while
keeping the buffer entry (part_000 lines 170-189).  Only ever invoked with an
existing buffer; an absent buffer leaves the state unchanged. -/
def finalizeFile (st : HostA) (id : String) : HostA :=
  match getEntry st.incomingFiles id with
  | none => st
  | some meta =>
    let blob := blobConcat meta.chunks
    { st with
      files := st.files.map (fun f =>
        if f.id = id then
          { f with status := FileStatusA.completed, progress := 100, url := some blob }
        else f),
      incomingFiles := setEntry st.incomingFiles id { meta with chunks := [] } }

/-- `handleIncomingData` (part_000 lines 112-168): HEADER initializes the
buffer, creates a UI card and sends an ACK back; CHUNK appends to the buffer
(silently dropped when the id is unknown), throttles the UI progress update,
and finalizes once `receivedBytes >= size`.  `now` is `Date.now()`. -/
def handleIncomingData (st : HostA) (now : Nat) (data : MsgA) : HostA :=
  match data with
  | MsgA.header id name size mime =>
    { st with
      incomingFiles := setEntry st.incomingFiles id
        { name := name, size := size, mime := mime,
          receivedBytes := 0, chunks := [], lastUpdate := now },
      files := { id := id, name := name, progress := 0,
                 status := FileStatusA.receiving, url := none } :: st.files,
      clogs := st.clogs ++ ["Header received. Sending ACK."],
      sentMsgs := st.sentMsgs ++ [MsgA.ack id] }
  | MsgA.chunk id payload =>
    match getEntry st.incomingFiles id with
    | none => st
    | some fileMeta =>
      let meta1 := appendChunk fileMeta payload
      let (meta2, files2) :=
        if now - meta1.lastUpdate > 500 ∨ meta1.receivedBytes = meta1.size then
          ({ meta1 with lastUpdate := now },
           st.files.map (fun f =>
             if f.id = id then
               { f with progress := progressPercent meta1.receivedBytes meta1.size }
             else f))
        else (meta1, st.files)
      let st1 := { st with incomingFiles := setEntry st.incomingFiles id meta2,
                           files := files2 }
      if meta1.receivedBytes ≥ meta1.size then finalizeFile st1 id else st1
  | MsgA.ack _ => st

/-- The `connection.on('close')` handler of variant A: only `setConn(null)`;
the buffer map is NOT touched (part_000 lines 96-98). -/
def connectionCloseA (st : HostA) : HostA := { st with conn := false }

/-- Sequential dispatch of incoming messages (single-threaded event loop). -/
def runHostA (st : HostA) (now : Nat) : List MsgA → HostA
  | [] => st
  | m :: ms => runHostA (handleIncomingData st now m) now ms

/-- The message sequence of one variant A transfer: the HEADER announce
followed by the chunks the sender's loop emits. -/
def transferMsgsA (file : Bytes) (c : Nat) (id name mime : String) : List MsgA :=
  MsgA.header id name file.length mime
    :: (sliceChunks file c 0).map (fun p => MsgA.chunk id p)

-- ---------------------------------------------------------------------------
-- Variant B (src/unnamed/part_001): file-start / stream-chunk / file-end.
-- ---------------------------------------------------------------------------

/-- Messages of variant B: `{type:'file-start',...}`,
`{type:'stream-chunk',fileId,chunk}`, `{type:'file-end',fileId}`
(part_001 lines 99, 114, 119, 276, 288, 311). -/
inductive MsgB where
  | fileStart (fileId name : String) (size : Nat) (mime : String)
  | streamChunk (fileId : String) (chunk : Bytes)
  | fileEnd (fileId : String)
deriving DecidableEq, Repr

/-- One entry of `incomingBuffer.current` (part_001 lines 102-110, 150-157).
The unread `startTime` timestamp is omitted. -/
structure BufferB where
  name : String
  size : Nat
  mime : String
  received : Nat
  chunks : List Bytes
  lastLog : Nat
deriving DecidableEq, Repr

/-- One entry of the host's `files` UI state in variant B (part_001 lines
193-199).  `sizeDisplay` models the `(received/1024).toFixed(1)+' KB'` label
by the received byte count it is computed from; `url` models the object URL
by the blob's bytes; the wall-clock `timestamp` is omitted. -/
structure FileEntryB where
  id : String
  name : String
  sizeDisplay : Nat
  url : Bytes
deriving DecidableEq, Repr

/-- Host-side state of variant B: buffer map, finished-files list, debug log
(most recent entry first, timestamp prefixes abstracted away), and the
connection flag. -/
structure HostB where
  incomingBuffer : List (String × BufferB)
  files : List FileEntryB
  logs : List String
  conn : Bool
deriving DecidableEq, Repr

/-- `addLog` prepends to the log list (part_001 lines 55-59). -/
def addLog (st : HostB) (msg : String) : HostB :=
  { st with logs := msg :: st.logs }

/-- Fresh host state of variant B with a sender connected. -/
def initialHostB : HostB :=
  { incomingBuffer := [], files := [], logs := [], conn := true }

/-- The degraded fallback buffer created for a chunk whose id was never
announced (part_001 lines 150-157). -/
def degradedBuffer : BufferB :=
  { name := "Unknown File", size := 0, mime := "application/octet-stream",
    received := 0, chunks := [], lastLog := 0 }

/-- `Math.floor((received / size) * 100)` (part_001 line 171), modelled as
integer division. -/
def floorPercent (received size : Nat) : Nat := (100 * received) / size

/-- `handleStreamChunk` (part_001 lines 144-177): a chunk for an unknown id
is admitted into a freshly created degraded buffer (with a logged warning);
the chunk is appended, `received` incremented, and log lines are emitted for
the first chunk and at every 20% step. -/
def handleStreamChunk (st : HostB) (fileId : String) (chunk : Bytes) : HostB :=
  let (st1, buf0) :=
    match getEntry st.incomingBuffer fileId with
    | some b => (st, b)
    | none =>
      ({ (addLog st ("Warning: Received chunk for unknown file " ++ fileId
            ++ ". Creating partial buffer.")) with
          incomingBuffer := setEntry st.incomingBuffer fileId degradedBuffer },
       degradedBuffer)
  let buf1 : BufferB :=
    { buf0 with chunks := buf0.chunks ++ [chunk],
                received := buf0.received + chunk.length }
  let st2 :=
    if buf1.chunks.length = 1 then
      addLog st1 ("First Chunk Received! Size: " ++ toString chunk.length ++ " bytes.")
    else st1
  let (buf2, st3) :=
    if buf1.size > 0 then
      let percent := floorPercent buf1.received buf1.size
      if percent % 20 = 0 ∧ percent ≠ buf1.lastLog then
        ({ buf1 with lastLog := percent },
         addLog st2 ("Receiving... " ++ toString percent ++ " percent"))
      else (buf1, st2)
    else (buf1, st2)
  { st3 with incomingBuffer := setEntry st3.incomingBuffer fileId buf2 }

/-- `finishFile` (part_001 lines 179-209): a missing buffer or an empty chunk
list is a failed transfer (CRITICAL log, no artifact); otherwise the chunks
are concatenated into a blob, the finished file is prepended to `files`, a
SUCCESS line is logged and the buffer entry is deleted.  The second component
is the artifact produced, `none` on failure. -/
def finishFile (st : HostB) (fileId : String) : HostB × Option Bytes :=
  let failLog := "CRITICAL: Buffer empty for " ++ fileId ++ ". Transfer failed."
  match getEntry st.incomingBuffer fileId with
  | none => (addLog st failLog, none)
  | some buffer =>
    if buffer.chunks.length = 0 then
      (addLog st failLog, none)
    else
      let st1 := addLog st ("Finalizing: " ++ toString buffer.chunks.length
        ++ " chunks collected. Total: " ++ toString buffer.received ++ " bytes.")
      let blob := blobConcat buffer.chunks
      let newFile : FileEntryB :=
        { id := fileId, name := buffer.name, sizeDisplay := buffer.received,
          url := blob }
      let st2 := { st1 with files := newFile :: st1.files }
      let st3 := addLog st2 "SUCCESS: File ready."
      ({ st3 with incomingBuffer := removeEntry st3.incomingBuffer fileId }, some blob)

/-- The `connection.on('data')` dispatcher of variant B (part_001 lines
96-123).  Returns the new state and the artifact finalized by this message,
if any. -/
def handleDataB (st : HostB) (data : MsgB) : HostB × Option Bytes :=
  match data with
  | MsgB.fileStart fileId name size mime =>
    ({ (addLog st ("Signal: FILE START received for " ++ name)) with
        incomingBuffer := setEntry st.incomingBuffer fileId
          { name := name, size := size, mime := mime,
            received := 0, chunks := [], lastLog := 0 } }, none)
  | MsgB.streamChunk fileId chunk => (handleStreamChunk st fileId chunk, none)
  | MsgB.fileEnd fileId =>
    finishFile (addLog st ("Signal: FILE END received for " ++ fileId)) fileId

/-- The `connection.on('close')` handler of variant B: log, drop the
connection AND clear the whole buffer map (part_001 lines 125-129). -/
def connectionCloseB (st : HostB) : HostB :=
  { (addLog st "Connection Closed") with conn := false, incomingBuffer := [] }

/-- Sequential dispatch of incoming messages in variant B. -/
def runHostB (st : HostB) : List MsgB → HostB
  | [] => st
  | m :: ms => runHostB (handleDataB st m).1 ms

-- ---------------------------------------------------------------------------
-- Variant A sender (part_000 lines 240-313): initiateSend / ACK /
-- startStreamingFile with the backpressure gate.
-- ---------------------------------------------------------------------------

/-- The 10 MiB high-water mark of the backpressure gate (part_000 line 272). -/
def HIGH_WATER_MARK : Nat := 10 * 1024 * 1024

/-- The outcome of one iteration of variant A's `sendLoop`. -/
inductive SendLoopAction where
  | wait (delayMs : Nat)
  | complete
  | abort
  | emit (chunk : Bytes) (nextOffset : Nat)
deriving DecidableEq, Repr

/-- One iteration of `sendLoop` (part_000 lines 270-309): if
`bufferedAmount > 10*1024*1024` wait 50 ms and retry; if `offset >= size`
the transfer is complete (variant A sends NO finish message); otherwise read
`file.slice(offset, offset+CHUNK_SIZE)` and, provided the connection is still
open, send it and advance the offset; a closed connection aborts the loop. -/
def sendLoop (file : Bytes) (offset bufferedAmount : Nat) (connOpen : Bool) :
    SendLoopAction :=
  if bufferedAmount > HIGH_WATER_MARK then SendLoopAction.wait 50
  else if offset ≥ file.length then SendLoopAction.complete
  else if connOpen then
    SendLoopAction.emit ((file.drop offset).take CHUNK_SIZE) (offset + CHUNK_SIZE)
  else SendLoopAction.abort

/-- The chunks actually sent by iterating `sendLoop` over a sequence of
`bufferedAmount` readings (one reading per wakeup of the loop), with the
connection open throughout. -/
def sendLoopRun (file : Bytes) : Nat → List Nat → List Bytes
  | _, [] => []
  | offset, r :: rs =>
    match sendLoop file offset r true with
    | SendLoopAction.wait _ => sendLoopRun file offset rs
    | SendLoopAction.complete => []
    | SendLoopAction.abort => []
    | SendLoopAction.emit chunk next => chunk :: sendLoopRun file next rs

/-- `sendingState` of the variant A sender (part_000 line 54). -/
inductive SendingStateA where
  | idle
  | waiting_ack
  | sending
  | doneS
deriving DecidableEq, Repr

/-- The variant A sender: `sendingState`, `fileToSendRef`, the streaming
offset, and the file id taken from the received ACK (part_000 uses
`data.id` of the ACK as the id of every chunk message). -/
structure SenderA where
  sendingState : SendingStateA
  fileToSend : Option Bytes
  offset : Nat
  streamFileId : String
  conn : Bool
deriving DecidableEq, Repr

/-- Events driving the variant A sender: the user picking a file
(`initiateSend`, with the freshly generated random id), a message arriving
from the receiver, and one wakeup of the send loop (with the current
`bufferedAmount` reading and channel-open flag). -/
inductive SenderEvtA where
  | selectFile (file : Bytes) (name mime fileId : String)
  | recvData (m : MsgA)
  | tick (bufferedAmount : Nat) (connOpen : Bool)
deriving DecidableEq, Repr

/-- The variant A sender transition function, returning the new state and the
messages emitted.  `selectFile` (part_000 lines 240-260, guarded by the
UI's `disabled={!conn || sendingState !== 'idle'}`) emits the HEADER and
waits; an incoming ACK (lines 221-227) starts `startStreamingFile` (lines
262-268: state `sending`, offset 0, chunk id taken from the ACK); `tick`
performs one `sendLoop` iteration while sending. -/
def senderAStep (s : SenderA) (e : SenderEvtA) : SenderA × List MsgA :=
  match e with
  | SenderEvtA.selectFile file name mime fileId =>
    if s.conn ∧ s.sendingState = SendingStateA.idle then
      ({ s with sendingState := SendingStateA.waiting_ack,
                fileToSend := some file, offset := 0 },
       [MsgA.header fileId name file.length mime])
    else (s, [])
  | SenderEvtA.recvData m =>
    match m with
    | MsgA.ack id =>
      ({ s with sendingState := SendingStateA.sending,
                streamFileId := id, offset := 0 }, [])
    | _ => (s, [])
  | SenderEvtA.tick buffered connOpen =>
    if s.sendingState = SendingStateA.sending then
      match s.fileToSend with
      | none => (s, [])
      | some file =>
        match sendLoop file s.offset buffered connOpen with
        | SendLoopAction.wait _ => (s, [])
        | SendLoopAction.complete =>
          ({ s with sendingState := SendingStateA.doneS }, [])
        | SendLoopAction.abort => (s, [])
        | SendLoopAction.emit chunk next =>
          ({ s with offset := next }, [MsgA.chunk s.streamFileId chunk])
    else (s, [])

-- ---------------------------------------------------------------------------
-- Variant B sender (part_001 lines 263-329): sendFile / sendNextChunk.
-- ---------------------------------------------------------------------------

/-- The messages emitted by `sendNextChunk` (part_001 lines 284-325), driven
by a schedule giving `conn.open` at each loop iteration: at `offset >=
file.size` the `file-end` message is sent (with no open-check in the code);
otherwise the next slice is read and, if the connection is still open, sent
as a `stream-chunk` — a closed connection stops the loop with no further
sends.  Variant B has no backpressure gate. -/
def sendNextChunk (file : Bytes) (fileId : String) : Nat → List Bool → List MsgB
  | offset, sched =>
    if offset ≥ file.length then [MsgB.fileEnd fileId]
    else
      match sched with
      | [] => []
      | b :: rest =>
        if b then
          MsgB.streamChunk fileId ((file.drop offset).take CHUNK_SIZE)
            :: sendNextChunk file fileId (offset + CHUNK_SIZE) rest
        else []

/-- `sendFile` (part_001 lines 263-329): the explicit `file-start` signal
followed by the streamed chunks and the final `file-end`. -/
def sendFileB (file : Bytes) (fileId name mime : String) (sched : List Bool) :
    List MsgB :=
  MsgB.fileStart fileId name file.length mime :: sendNextChunk file fileId 0 sched

/-- Number of loop iterations needed to stream the bytes from `offset` on,
in `CHUNK_SIZE` steps: the ceiling of `(length - offset) / CHUNK_SIZE`. -/
def chunksRemaining (file : Bytes) (offset : Nat) : Nat :=
  (file.length - offset + (CHUNK_SIZE - 1)) / CHUNK_SIZE

-- ---------------------------------------------------------------------------
-- Lemmas about the sender's slicing loop.
-- ---------------------------------------------------------------------------

theorem sliceChunks_flatten (file : Bytes) (c : Nat) (hc : 0 < c) :
    ∀ offset, (sliceChunks file c offset).flatten = file.drop offset := by
  have H : ∀ n offset, file.length - offset ≤ n →
      (sliceChunks file c offset).flatten = file.drop offset := by
    intro n
    induction n with
    | zero =>
      intro offset h
      rw [sliceChunks]
      rw [dif_neg (by omega)]
      rw [List.drop_eq_nil_of_le (by omega)]
      rfl
    | succ n ih =>
      intro offset h
      rw [sliceChunks]
      by_cases h' : offset < file.length
      · rw [dif_pos ⟨h', hc⟩, List.flatten_cons, ih (offset + c) (by omega)]
        rw [show file.drop (offset + c) = (file.drop offset).drop c by
          rw [List.drop_drop]]
        exact List.take_append_drop c (file.drop offset)
      · rw [dif_neg (by omega)]
        rw [List.drop_eq_nil_of_le (by omega)]
        rfl
  intro offset
  exact H (file.length - offset) offset le_rfl

theorem sumLens_take_sliceChunks (file : Bytes) (c : Nat) (hc : 0 < c) :
    ∀ k offset, sumLens ((sliceChunks file c offset).take k)
      = min (k * c) (file.length - offset) := by
  intro k
  induction k with
  | zero => intro offset; simp [sumLens]
  | succ k ih =>
    intro offset
    rw [sliceChunks]
    by_cases h' : offset < file.length
    · rw [dif_pos ⟨h', hc⟩]
      rw [List.take_succ_cons]
      have hlen : ((file.drop offset).take c).length
          = min c (file.length - offset) := by
        simp [List.length_take, List.length_drop]
      have : sumLens (((file.drop offset).take c)
          :: (sliceChunks file c (offset + c)).take k)
          = min c (file.length - offset)
            + sumLens ((sliceChunks file c (offset + c)).take k) := by
        simp [sumLens, hlen]
      rw [this, ih (offset + c)]
      have hsub : file.length - (offset + c) = file.length - offset - c := by omega
      rw [hsub, Nat.succ_mul]
      generalize k * c = K
      omega
    · rw [dif_neg (by omega)]
      simp [sumLens]
      omega

theorem ceilDiv_succ {c d : Nat} (hc : 0 < c) (hd : 0 < d) :
    (d + (c - 1)) / c = ((d - c) + (c - 1)) / c + 1 := by
  have h1 : d + (c - 1) = (d - 1) + c := by omega
  rw [h1, Nat.add_div_right _ hc]
  rcases Nat.lt_or_ge (d - 1) c with hlt | hge
  · rw [Nat.div_eq_of_lt hlt]
    have h2 : d - c + (c - 1) < c := by omega
    rw [Nat.div_eq_of_lt h2]
  · have h3 : d - c + (c - 1) = (d - 1 - c) + c := by omega
    rw [h3, Nat.add_div_right _ hc]
    have h4 : d - 1 = (d - 1 - c) + c := by omega
    conv_lhs => rw [h4]
    rw [Nat.add_div_right _ hc]

theorem sliceChunks_length (file : Bytes) (c : Nat) (hc : 0 < c) :
    ∀ offset, (sliceChunks file c offset).length
      = (file.length - offset + (c - 1)) / c := by
  have H : ∀ n offset, file.length - offset ≤ n →
      (sliceChunks file c offset).length
        = (file.length - offset + (c - 1)) / c := by
    intro n
    induction n with
    | zero =>
      intro offset h
      rw [sliceChunks, dif_neg (by omega)]
      have : file.length - offset = 0 := by omega
      rw [this]
      simp [Nat.div_eq_of_lt (by omega : c - 1 < c)]
    | succ n ih =>
      intro offset h
      rw [sliceChunks]
      by_cases h' : offset < file.length
      · rw [dif_pos ⟨h', hc⟩, List.length_cons, ih (offset + c) (by omega)]
        have hd : 0 < file.length - offset := by omega
        rw [ceilDiv_succ hc hd]
        have : file.length - (offset + c) = file.length - offset - c := by omega
        rw [this]
      · rw [dif_neg (by omega)]
        have : file.length - offset = 0 := by omega
        rw [this]
        simp [Nat.div_eq_of_lt (by omega : c - 1 < c)]
  intro offset
  exact H (file.length - offset) offset le_rfl

theorem sliceChunks_ne_nil_iff (file : Bytes) (c : Nat) (hc : 0 < c) (offset : Nat) :
    sliceChunks file c offset ≠ [] ↔ offset < file.length := by
  rw [sliceChunks]
  by_cases h' : offset < file.length
  · rw [dif_pos ⟨h', hc⟩]
    simp [h']
  · rw [dif_neg (by omega)]
    simp [h']

theorem sliceChunks_dropLast_length (file : Bytes) (c : Nat) (hc : 0 < c) :
    ∀ offset, ∀ ch ∈ (sliceChunks file c offset).dropLast, ch.length = c := by
  have H : ∀ n offset, file.length - offset ≤ n →
      ∀ ch ∈ (sliceChunks file c offset).dropLast, ch.length = c := by
    intro n
    induction n with
    | zero =>
      intro offset h ch hch
      rw [sliceChunks, dif_neg (by omega)] at hch
      simp at hch
    | succ n ih =>
      intro offset h ch hch
      rw [sliceChunks] at hch
      by_cases h' : offset < file.length
      · rw [dif_pos ⟨h', hc⟩] at hch
        by_cases hrest : sliceChunks file c (offset + c) = []
        · rw [hrest] at hch
          simp at hch
        · rw [List.dropLast_cons_of_ne_nil hrest] at hch
          rcases List.mem_cons.mp hch with h1 | h2
          · have hoc : offset + c < file.length :=
              (sliceChunks_ne_nil_iff file c hc (offset + c)).mp hrest
            subst h1
            simp only [List.length_take, List.length_drop]
            omega
          · exact ih (offset + c) (by omega) ch h2
      · rw [dif_neg (by omega)] at hch
        simp at hch
  intro offset
  exact H (file.length - offset) offset le_rfl

theorem sliceChunks_getLast?_length (file : Bytes) (c : Nat) (hc : 0 < c) :
    ∀ offset last, (sliceChunks file c offset).getLast? = some last →
      last.length = if (file.length - offset) % c = 0 then c
                    else (file.length - offset) % c := by
  have H : ∀ n offset, file.length - offset ≤ n →
      ∀ last, (sliceChunks file c offset).getLast? = some last →
        last.length = if (file.length - offset) % c = 0 then c
                      else (file.length - offset) % c := by
    intro n
    induction n with
    | zero =>
      intro offset h last hlast
      rw [sliceChunks, dif_neg (by omega)] at hlast
      simp at hlast
    | succ n ih =>
      intro offset h last hlast
      rw [sliceChunks] at hlast
      by_cases h' : offset < file.length
      · rw [dif_pos ⟨h', hc⟩] at hlast
        by_cases hrest : sliceChunks file c (offset + c) = []
        · rw [hrest] at hlast
          simp at hlast
          have hle : file.length ≤ offset + c := by
            by_contra hlt
            exact ((sliceChunks_ne_nil_iff file c hc (offset + c)).mpr (by omega)) hrest
          subst hlast
          simp only [List.length_take, List.length_drop]
          rcases Nat.lt_or_ge (file.length - offset) c with hd | hd
          · rw [Nat.mod_eq_of_lt hd, if_neg (by omega)]
            omega
          · have hdc : file.length - offset = c := by omega
            rw [hdc, Nat.mod_self, if_pos rfl]
            omega
        · obtain ⟨r, rs, hrr⟩ := List.exists_cons_of_ne_nil hrest
          rw [hrr] at hlast
          rw [List.getLast?_cons_cons] at hlast
          rw [← hrr] at hlast
          have hoc : offset + c < file.length :=
            (sliceChunks_ne_nil_iff file c hc (offset + c)).mp hrest
          have := ih (offset + c) (by omega) last hlast
          have hmod : (file.length - (offset + c)) % c = (file.length - offset) % c := by
            have h1 : file.length - offset = (file.length - (offset + c)) + c := by omega
            rw [h1, Nat.add_mod_right]
          rw [hmod] at this
          exact this
      · rw [dif_neg (by omega)] at hlast
        simp at hlast
  intro offset
  exact H (file.length - offset) offset le_rfl

-- ---------------------------------------------------------------------------
-- C1: split / reassemble round trip.
-- ---------------------------------------------------------------------------

/-- C1: for every file of N bytes and every chunk size c > 0, splitting the
file into successive chunks of size at most c (as the senders' loops do with
`file.slice`) and concatenating the chunks in emission order (as the
receivers' finalization does via Blob concatenation) reproduces the original
N bytes exactly — for every N, including 0, 1, c-1, c, c+1 and 10c+7. -/
theorem c1_round_trip (file : Bytes) (c : Nat) (hc : 0 < c) :
    blobConcat (sliceChunks file c 0) = file := by
  unfold blobConcat
  rw [sliceChunks_flatten file c hc 0]
  exact List.drop_zero file

theorem c1_round_trip_witness :
    0 < 2 ∧ blobConcat (sliceChunks [0, 1, 2, 3, 4] 2 0) = [0, 1, 2, 3, 4] :=
  ⟨by decide, c1_round_trip [0, 1, 2, 3, 4] 2 (by decide)⟩

-- ---------------------------------------------------------------------------
-- C8: chunk sizes.
-- ---------------------------------------------------------------------------

/-- C8: every chunk produced by the sender's split has length exactly c
except the final chunk, whose length is N mod c (or a full chunk of length c
when c divides N evenly); and the chunk size both senders use is 16 KiB. -/
theorem c8_chunk_sizes (file : Bytes) (c : Nat) (hc : 0 < c) :
    (∀ ch ∈ (sliceChunks file c 0).dropLast, ch.length = c)
    ∧ (∀ last, (sliceChunks file c 0).getLast? = some last →
        last.length = if file.length % c = 0 then c else file.length % c)
    ∧ CHUNK_SIZE = 16 * 1024 := by
  refine ⟨sliceChunks_dropLast_length file c hc 0, ?_, rfl⟩
  intro last hlast
  have := sliceChunks_getLast?_length file c hc 0 last hlast
  simpa using this

theorem c8_chunk_sizes_witness :
    0 < 2
    ∧ ((∀ ch ∈ (sliceChunks [1, 2, 3] 2 0).dropLast, ch.length = 2)
      ∧ (∀ last, (sliceChunks [1, 2, 3] 2 0).getLast? = some last →
          last.length = if ([1, 2, 3] : Bytes).length % 2 = 0 then 2
                        else ([1, 2, 3] : Bytes).length % 2)
      ∧ CHUNK_SIZE = 16 * 1024) :=
  ⟨by decide, c8_chunk_sizes [1, 2, 3] 2 (by decide)⟩

-- ---------------------------------------------------------------------------
-- C4: backpressure gate.
-- ---------------------------------------------------------------------------

/-- C4: whenever the channel's buffered-byte count exceeds the 10 MiB
high-water mark, one iteration of the send loop emits nothing and retries
after 50 ms; at or below the mark the loop never waits; and a run of the
loop whose leading buffered-amount readings are all above the mark emits the
same chunks as the run without them — in particular a run whose readings are
all above the mark emits zero chunks. -/
theorem c4_backpressure (file : Bytes) (offset : Nat) :
    (∀ buffered connOpen, buffered > 10 * 1024 * 1024 →
      sendLoop file offset buffered connOpen = SendLoopAction.wait 50)
    ∧ (∀ buffered connOpen, buffered ≤ 10 * 1024 * 1024 →
      ∀ d, sendLoop file offset buffered connOpen ≠ SendLoopAction.wait d)
    ∧ (∀ highs rest, (∀ r ∈ highs, r > 10 * 1024 * 1024) →
      sendLoopRun file offset (highs ++ rest) = sendLoopRun file offset rest)
    ∧ (∀ highs, (∀ r ∈ highs, r > 10 * 1024 * 1024) →
      sendLoopRun file offset highs = []) := by
  have hwm : HIGH_WATER_MARK = 10 * 1024 * 1024 := rfl
  have step_wait : ∀ buffered connOpen, buffered > 10 * 1024 * 1024 →
      sendLoop file offset buffered connOpen = SendLoopAction.wait 50 := by
    intro buffered connOpen hb
    unfold sendLoop
    rw [if_pos (by omega)]
  have step_go : ∀ buffered connOpen, buffered ≤ 10 * 1024 * 1024 →
      ∀ d, sendLoop file offset buffered connOpen ≠ SendLoopAction.wait d := by
    intro buffered connOpen hb d
    unfold sendLoop
    rw [if_neg (by omega)]
    by_cases h1 : offset ≥ file.length
    · rw [if_pos h1]
      simp
    · rw [if_neg h1]
      by_cases h2 : connOpen <;> simp [h2]
  have run_skip : ∀ highs rest, (∀ r ∈ highs, r > 10 * 1024 * 1024) →
      sendLoopRun file offset (highs ++ rest) = sendLoopRun file offset rest := by
    intro highs
    induction highs with
    | nil => intro rest _; rfl
    | cons r rs ih =>
      intro rest hh
      have hr : r > 10 * 1024 * 1024 := hh r (List.mem_cons_self r rs)
      show sendLoopRun file offset (r :: (rs ++ rest)) = sendLoopRun file offset rest
      rw [sendLoopRun, step_wait r true hr]
      exact ih rest (fun x hx => hh x (List.mem_cons_of_mem r hx))
  refine ⟨step_wait, step_go, run_skip, ?_⟩
  intro highs hh
  have := run_skip highs [] hh
  simpa [sendLoopRun] using this

theorem c4_backpressure_witness :
    (10 * 1024 * 1024 + 1 > 10 * 1024 * 1024)
    ∧ sendLoop [1, 2, 3] 0 (10 * 1024 * 1024 + 1) true = SendLoopAction.wait 50 :=
  ⟨by omega, (c4_backpressure [1, 2, 3] 0).1 (10 * 1024 * 1024 + 1) true (by omega)⟩

-- ---------------------------------------------------------------------------
-- C6: the finish message is emitted exactly when streaming reaches EOF.
-- ---------------------------------------------------------------------------

theorem chunksRemaining_eq_zero (file : Bytes) (offset : Nat)
    (h : file.length ≤ offset) : chunksRemaining file offset = 0 := by
  unfold chunksRemaining
  have h0 : file.length - offset = 0 := by omega
  rw [h0]
  exact Nat.div_eq_of_lt (by decide)

theorem chunksRemaining_succ (file : Bytes) (offset : Nat)
    (h : offset < file.length) :
    chunksRemaining file offset = chunksRemaining file (offset + CHUNK_SIZE) + 1 := by
  unfold chunksRemaining
  have hc : 0 < CHUNK_SIZE := by decide
  have hd : 0 < file.length - offset := by omega
  rw [ceilDiv_succ hc hd]
  have h1 : file.length - offset - CHUNK_SIZE = file.length - (offset + CHUNK_SIZE) := by
    omega
  rw [h1]

theorem sendNextChunk_fileEnd_mem (file : Bytes) (fileId : String) :
    ∀ (sched : List Bool) (offset : Nat),
      MsgB.fileEnd fileId ∈ sendNextChunk file fileId offset sched
        ↔ chunksRemaining file offset ≤ sched.length
          ∧ ∀ b ∈ sched.take (chunksRemaining file offset), b = true := by
  intro sched
  induction sched with
  | nil =>
    intro offset
    rw [sendNextChunk]
    by_cases h : offset ≥ file.length
    · rw [if_pos h]
      simp [chunksRemaining_eq_zero file offset h]
    · rw [if_neg h, chunksRemaining_succ file offset (by omega)]
      simp
  | cons b rest ih =>
    intro offset
    rw [sendNextChunk]
    by_cases h : offset ≥ file.length
    · rw [if_pos h]
      simp [chunksRemaining_eq_zero file offset h]
    · rw [if_neg h, chunksRemaining_succ file offset (by omega)]
      cases b with
      | false =>
        rw [if_neg (by simp)]
        constructor
        · intro hmem
          simp at hmem
        · rintro ⟨h1, h2⟩
          have hx := h2 false (by rw [List.take_succ_cons]; exact List.mem_cons_self _ _)
          simp at hx
      | true =>
        rw [if_pos rfl]
        constructor
        · intro hmem
          rcases List.mem_cons.mp hmem with h1 | h2
          · simp at h1
          · have hih := (ih (offset + CHUNK_SIZE)).mp h2
            refine ⟨by simp; omega, ?_⟩
            intro x hx
            rw [List.take_succ_cons] at hx
            rcases List.mem_cons.mp hx with rfl | hx'
            · rfl
            · exact hih.2 x hx'
        · rintro ⟨h1, h2⟩
          apply List.mem_cons_of_mem
          apply (ih (offset + CHUNK_SIZE)).mpr
          refine ⟨by simp at h1; omega, ?_⟩
          intro x hx
          apply h2 x
          rw [List.take_succ_cons]
          exact List.mem_cons_of_mem _ hx

theorem sendNextChunk_stops_at_close (file : Bytes) (fileId : String) :
    ∀ (s1 : List Bool) (offset : Nat) (rest : List Bool),
      sendNextChunk file fileId offset (s1 ++ false :: rest)
        = sendNextChunk file fileId offset (s1 ++ [false]) := by
  intro s1
  induction s1 with
  | nil =>
    intro offset rest
    simp only [List.nil_append]
    rw [sendNextChunk]
    rw [sendNextChunk]
    by_cases h : offset ≥ file.length
    · rw [if_pos h, if_pos h]
    · rw [if_neg h, if_neg h]
      rfl
  | cons b bs ih =>
    intro offset rest
    rw [show (b :: bs) ++ false :: rest = b :: (bs ++ false :: rest) from rfl,
        show (b :: bs) ++ [false] = b :: (bs ++ [false]) from rfl]
    rw [sendNextChunk]
    rw [sendNextChunk]
    by_cases h : offset ≥ file.length
    · rw [if_pos h, if_pos h]
    · rw [if_neg h, if_neg h]
      cases b with
      | false => rfl
      | true =>
        rw [if_pos rfl, if_pos rfl, ih]

/-- The variant A sender, mid-transfer for the two-byte file [1, 2], woken
up by its loop after the last chunk was sent (offset 2, channel open,
nothing buffered). -/
def c6SenderDone : SenderA × List MsgA :=
  senderAStep
    { sendingState := SendingStateA.sending, fileToSend := some [1, 2],
      offset := 2, streamFileId := "t1", conn := true }
    (SenderEvtA.tick 0 true)

/-- C6 counterexample: the variant A (part_000) sender reaches end-of-file
on an open channel — offset 2 at file size 2, bufferedAmount 0, connection
open — and transitions to done while emitting NO message at all: variant A
has no finish message in its protocol (its receiver finalizes by byte count
instead), refuting "on reaching end-of-file it emits a finish message". -/
theorem c6_counterexample :
    c6SenderDone.1.sendingState = SendingStateA.doneS ∧ c6SenderDone.2 = [] := by
  constructor <;> rfl

/-- C6 amended: the two variants genuinely differ here.  In the
start/chunk/end variant (part_001) the sender emits the finish message
`file-end` exactly when its loop reaches end-of-file, i.e. when the channel
stays open for the `chunksRemaining` iterations needed to stream every
chunk; and once the channel is reported closed the loop stops — the emitted
messages do not depend on anything after the first closed reading, and a
transfer aborted before end-of-file never gets a finish message.  In the
ACK-gated variant (part_000) the sender emits no finish message at all: on
reaching end-of-file with the backpressure gate clear it transitions to
done emitting nothing. -/
theorem c6_amended :
    (∀ (file : Bytes) (fileId : String) (sched : List Bool),
      (MsgB.fileEnd fileId ∈ sendNextChunk file fileId 0 sched
        ↔ chunksRemaining file 0 ≤ sched.length
          ∧ ∀ b ∈ sched.take (chunksRemaining file 0), b = true)
      ∧ (∀ s1 rest, sched = s1 ++ false :: rest →
          sendNextChunk file fileId 0 sched
            = sendNextChunk file fileId 0 (s1 ++ [false])
          ∧ (s1.length < chunksRemaining file 0 →
              MsgB.fileEnd fileId ∉ sendNextChunk file fileId 0 sched)))
    ∧ (∀ (s : SenderA) (file : Bytes) (buffered : Nat) (connOpen : Bool),
      s.sendingState = SendingStateA.sending →
      s.fileToSend = some file →
      file.length ≤ s.offset →
      buffered ≤ HIGH_WATER_MARK →
      senderAStep s (SenderEvtA.tick buffered connOpen)
        = ({ s with sendingState := SendingStateA.doneS }, [])) := by
  constructor
  · intro file fileId sched
    refine ⟨sendNextChunk_fileEnd_mem file fileId sched 0, ?_⟩
    rintro s1 rest rfl
    refine ⟨sendNextChunk_stops_at_close file fileId s1 0 rest, ?_⟩
    intro hlen hmem
    have hch := (sendNextChunk_fileEnd_mem file fileId (s1 ++ false :: rest) 0).mp hmem
    have hfalse : (false : Bool)
        ∈ (s1 ++ false :: rest).take (chunksRemaining file 0) := by
      rw [List.take_append_eq_append_take, List.take_of_length_le (by omega)]
      obtain ⟨k, hk⟩ : ∃ k, chunksRemaining file 0 - s1.length = k + 1 :=
        ⟨chunksRemaining file 0 - s1.length - 1, by omega⟩
      rw [hk, List.take_succ_cons]
      exact List.mem_append_right _ (List.mem_cons_self _ _)
    exact Bool.false_ne_true (hch.2 false hfalse)
  · intro s file buffered connOpen hs hf hoff hbuf
    have hsl : sendLoop file s.offset buffered connOpen = SendLoopAction.complete := by
      unfold sendLoop
      rw [if_neg (by omega), if_pos hoff]
    simp only [senderAStep, hs, hf, hsl, if_true]

theorem c6_amended_witness :
    ({ sendingState := SendingStateA.sending, fileToSend := some [1, 2],
       offset := 2, streamFileId := "t1", conn := true } : SenderA).sendingState
        = SendingStateA.sending
    ∧ ([1, 2] : Bytes).length ≤ 2
    ∧ (0 : Nat) ≤ HIGH_WATER_MARK
    ∧ senderAStep
        { sendingState := SendingStateA.sending, fileToSend := some [1, 2],
          offset := 2, streamFileId := "t1", conn := true }
        (SenderEvtA.tick 0 true)
      = ({ sendingState := SendingStateA.doneS, fileToSend := some [1, 2],
           offset := 2, streamFileId := "t1", conn := true }, []) :=
  ⟨rfl, by decide, by decide,
    c6_amended.2
      { sendingState := SendingStateA.sending, fileToSend := some [1, 2],
        offset := 2, streamFileId := "t1", conn := true }
      [1, 2] 0 true rfl rfl (by decide) (by decide)⟩

-- ---------------------------------------------------------------------------
-- C5: ACK-gated streaming in the handshake variant.
-- ---------------------------------------------------------------------------

theorem finalizeFile_sentMsgs (st : HostA) (id : String) :
    (finalizeFile st id).sentMsgs = st.sentMsgs := by
  unfold finalizeFile
  cases getEntry st.incomingFiles id <;> rfl

theorem handleIncomingData_sentMsgs (st : HostA) (now : Nat) (m : MsgA) :
    (handleIncomingData st now m).sentMsgs
      = st.sentMsgs ++ (match m with
          | MsgA.header i _ _ _ => [MsgA.ack i]
          | _ => []) := by
  cases m with
  | header i n sz mi => rfl
  | ack a => simp [handleIncomingData]
  | chunk i p =>
    rw [show (match MsgA.chunk i p with
        | MsgA.header i _ _ _ => [MsgA.ack i]
        | _ => ([] : List MsgA)) = [] from rfl, List.append_nil]
    simp only [handleIncomingData]
    cases hq : getEntry st.incomingFiles i with
    | none => rfl
    | some fileMeta =>
      repeat' split
      all_goals first
        | rw [finalizeFile_sentMsgs]
        | rfl

theorem senderAStep_chunk_only_sending (s : SenderA) (e : SenderEvtA)
    (id : String) (p : Bytes)
    (hmem : MsgA.chunk id p ∈ (senderAStep s e).2) :
    s.sendingState = SendingStateA.sending := by
  cases e with
  | selectFile file name mime fileId =>
    simp only [senderAStep] at hmem
    split at hmem <;> simp at hmem
  | recvData m =>
    cases m <;> simp [senderAStep] at hmem
  | tick buffered connOpen =>
    simp only [senderAStep] at hmem
    by_cases hs : s.sendingState = SendingStateA.sending
    · exact hs
    · rw [if_neg hs] at hmem
      simp at hmem

theorem senderAStep_sending_source (s : SenderA) (e : SenderEvtA)
    (hstep : (senderAStep s e).1.sendingState = SendingStateA.sending) :
    s.sendingState = SendingStateA.sending
      ∨ ∃ a, e = SenderEvtA.recvData (MsgA.ack a) := by
  cases e with
  | selectFile file name mime fileId =>
    simp only [senderAStep] at hstep
    split at hstep
    · simp at hstep
    · exact Or.inl hstep
  | recvData m =>
    cases m with
    | ack a => exact Or.inr ⟨a, rfl⟩
    | header i n sz mi => exact Or.inl (by simpa [senderAStep] using hstep)
    | chunk i p => exact Or.inl (by simpa [senderAStep] using hstep)
  | tick buffered connOpen =>
    by_cases hs : s.sendingState = SendingStateA.sending
    · exact Or.inl hs
    · simp only [senderAStep] at hstep
      rw [if_neg hs] at hstep
      exact Or.inl hstep

/-- C5: in the handshake variant the sender emits chunk messages only while
in the `sending` state; the only event that moves the sender into `sending`
is the receipt of an ACK message; and the receiver emits an ACK exactly upon
processing a HEADER announce, carrying the announced transfer id — so no
chunk is emitted before the sender's announce has been acknowledged by the
receiver. -/
theorem c5_ack_gated_streaming :
    (∀ (s : SenderA) (e : SenderEvtA) (id : String) (p : Bytes),
      MsgA.chunk id p ∈ (senderAStep s e).2 →
      s.sendingState = SendingStateA.sending)
    ∧ (∀ (s : SenderA) (e : SenderEvtA),
      (senderAStep s e).1.sendingState = SendingStateA.sending →
      s.sendingState = SendingStateA.sending
        ∨ ∃ a, e = SenderEvtA.recvData (MsgA.ack a))
    ∧ (∀ (st : HostA) (now : Nat) (m : MsgA),
      (handleIncomingData st now m).sentMsgs
        = st.sentMsgs ++ (match m with
            | MsgA.header i _ _ _ => [MsgA.ack i]
            | _ => [])) :=
  ⟨senderAStep_chunk_only_sending, senderAStep_sending_source,
    handleIncomingData_sentMsgs⟩

theorem c5_ack_gated_streaming_witness :
    (MsgA.chunk "t1" [9] ∈ (senderAStep
        { sendingState := SendingStateA.sending, fileToSend := some [9],
          offset := 0, streamFileId := "t1", conn := true }
        (SenderEvtA.tick 0 true)).2)
    ∧ ({ sendingState := SendingStateA.sending, fileToSend := some [9],
          offset := 0, streamFileId := "t1", conn := true } : SenderA).sendingState
        = SendingStateA.sending :=
  ⟨by decide,
    c5_ack_gated_streaming.1
      { sendingState := SendingStateA.sending, fileToSend := some [9],
        offset := 0, streamFileId := "t1", conn := true }
      (SenderEvtA.tick 0 true) "t1" [9] (by decide)⟩

-- ---------------------------------------------------------------------------
-- C3: chunk for a transferId that was never announced.
-- ---------------------------------------------------------------------------

/-- A variant B run in which a chunk arrives for the never-announced id
"ghost" and is followed by a finish message for that id. -/
def c3RunB : HostB :=
  runHostB initialHostB [MsgB.streamChunk "ghost" [7], MsgB.fileEnd "ghost"]

/-- C3 counterexample: in variant B a chunk for a never-announced id is NOT
dropped — it is admitted into a degraded buffer, and a subsequent finish
message produces an AssembledArtifact for that id (here the one-byte file
[7]), contradicting the claim that no artifact is ever produced. -/
theorem c3_counterexample :
    c3RunB.files.map (fun f => (f.id, f.url)) = [("ghost", [7])]
    ∧ "Warning: Received chunk for unknown file ghost. Creating partial buffer."
        ∈ c3RunB.logs := by
  constructor
  · rfl
  · decide

/-- C3 amended: an unknown-id chunk never crashes either receiver, but the
two variants disagree with the claim: variant A drops the chunk silently —
the state is completely unchanged, so no artifact and also NO anomaly signal
— while variant B logs a warning (the anomaly signal) yet admits the chunk
into a freshly created degraded buffer of announced size 0 instead of
dropping it (from which a later finish message can produce an artifact). -/
theorem c3_amended :
    (∀ (st : HostA) (now : Nat) (id : String) (payload : Bytes),
      getEntry st.incomingFiles id = none →
      handleIncomingData st now (MsgA.chunk id payload) = st)
    ∧ (∀ (st : HostB) (id : String) (payload : Bytes),
      getEntry st.incomingBuffer id = none →
      (∃ b, getEntry (handleStreamChunk st id payload).incomingBuffer id = some b
          ∧ b.chunks = [payload] ∧ b.size = 0)
        ∧ (handleStreamChunk st id payload).files = st.files
        ∧ ("Warning: Received chunk for unknown file " ++ id
            ++ ". Creating partial buffer.") ∈ (handleStreamChunk st id payload).logs) := by
  constructor
  · intro st now id payload hq
    simp only [handleIncomingData, hq]
  · intro st id payload hq
    have hstep : handleStreamChunk st id payload
        = { st with
            incomingBuffer := setEntry st.incomingBuffer id
              { degradedBuffer with chunks := [payload], received := payload.length },
            logs := ("First Chunk Received! Size: " ++ toString payload.length
                ++ " bytes.")
              :: ("Warning: Received chunk for unknown file " ++ id
                  ++ ". Creating partial buffer.") :: st.logs } := by
      simp [handleStreamChunk, hq, addLog, degradedBuffer, setEntry_setEntry]
    rw [hstep]
    refine ⟨⟨_, getEntry_setEntry_self _ _ _, rfl, rfl⟩, rfl, ?_⟩
    simp

theorem c3_amended_witness :
    getEntry initialHostB.incomingBuffer "ghost" = none
    ∧ ((∃ b, getEntry (handleStreamChunk initialHostB "ghost" [7]).incomingBuffer
            "ghost" = some b ∧ b.chunks = [[7]] ∧ b.size = 0)
      ∧ (handleStreamChunk initialHostB "ghost" [7]).files = initialHostB.files
      ∧ ("Warning: Received chunk for unknown file " ++ "ghost"
          ++ ". Creating partial buffer.")
          ∈ (handleStreamChunk initialHostB "ghost" [7]).logs) :=
  ⟨rfl, c3_amended.2 initialHostB "ghost" [7] rfl⟩

-- ---------------------------------------------------------------------------
-- C2: finish message with receivedBytes < totalSizeBytes.
-- ---------------------------------------------------------------------------

/-- A variant B receiver state in which the buffer for "t1" announced
totalSizeBytes = 100 but has received only 5 bytes (one chunk). -/
def c2State : HostB :=
  { incomingBuffer := [("t1",
      { name := "a.txt", size := 100, mime := "text/plain",
        received := 5, chunks := [[1, 2, 3, 4, 5]], lastLog := 0 })],
    files := [], logs := [], conn := true }

/-- C2 counterexample: a finish message for a buffer with
receivedBytes (5) strictly below totalSizeBytes (100) but a non-empty chunk
list is finalized into a COMPLETE artifact — `finishFile` never compares
received against size, so the claimed FAILED outcome does not happen. -/
theorem c2_counterexample :
    (∃ b, getEntry c2State.incomingBuffer "t1" = some b ∧ b.received < b.size)
    ∧ (finishFile c2State "t1").2 = some [1, 2, 3, 4, 5]
    ∧ (finishFile c2State "t1").1.files ≠ [] := by
  refine ⟨⟨_, rfl, by decide⟩, rfl, by decide⟩

/-- C2 amended: processing a finish message yields a FAILED outcome (no
artifact, CRITICAL log, `files` untouched) exactly when the buffer is
missing or its chunk list is empty; otherwise the receiver finalizes
whatever bytes were received into a COMPLETE artifact — even when
receivedBytes < totalSizeBytes. -/
theorem c2_amended (st : HostB) (fileId : String) :
    (getEntry st.incomingBuffer fileId = none →
      (finishFile st fileId).2 = none
      ∧ (finishFile st fileId).1.files = st.files
      ∧ ("CRITICAL: Buffer empty for " ++ fileId ++ ". Transfer failed.")
          ∈ (finishFile st fileId).1.logs)
    ∧ (∀ b, getEntry st.incomingBuffer fileId = some b → b.chunks = [] →
      (finishFile st fileId).2 = none
      ∧ (finishFile st fileId).1.files = st.files
      ∧ ("CRITICAL: Buffer empty for " ++ fileId ++ ". Transfer failed.")
          ∈ (finishFile st fileId).1.logs)
    ∧ (∀ b, getEntry st.incomingBuffer fileId = some b → b.chunks ≠ [] →
      (finishFile st fileId).2 = some (blobConcat b.chunks)
      ∧ (finishFile st fileId).1.files
          = { id := fileId, name := b.name, sizeDisplay := b.received,
              url := blobConcat b.chunks } :: st.files) := by
  refine ⟨?_, ?_, ?_⟩
  · intro hq
    simp [finishFile, hq, addLog]
  · intro b hq hempty
    simp [finishFile, hq, hempty, addLog]
  · intro b hq hne
    have hlen : ¬(b.chunks.length = 0) := by
      intro h0
      exact hne (List.length_eq_zero.mp h0)
    simp [finishFile, hq, hlen, addLog]

theorem c2_amended_witness :
    getEntry c2State.incomingBuffer "t1"
      = some { name := "a.txt", size := 100, mime := "text/plain",
               received := 5, chunks := [[1, 2, 3, 4, 5]], lastLog := 0 }
    ∧ ([[1, 2, 3, 4, 5]] : List Bytes) ≠ []
    ∧ ((finishFile c2State "t1").2
        = some (blobConcat [[1, 2, 3, 4, 5]])
      ∧ (finishFile c2State "t1").1.files
        = { id := "t1", name := "a.txt", sizeDisplay := 5,
            url := blobConcat [[1, 2, 3, 4, 5]] } :: c2State.files) :=
  ⟨rfl, by decide, (c2_amended c2State "t1").2.2 _ rfl (by decide)⟩

-- ---------------------------------------------------------------------------
-- C9: channel close while a transfer is still in progress.
-- ---------------------------------------------------------------------------

/-- A variant A receiver state holding a partially received buffer for "t1"
(2 of 10 bytes) when the channel closes. -/
def c9StateA : HostA :=
  { incomingFiles := [("t1",
      { name := "a.bin", size := 10, mime := "application/x-bin",
        receivedBytes := 2, chunks := [[1, 2]], lastUpdate := 0 })],
    files := [{ id := "t1", name := "a.bin", progress := 20,
                status := FileStatusA.receiving, url := none }],
    sentMsgs := [MsgA.ack "t1"], clogs := [], conn := true }

/-- C9 counterexample: variant A's close handler only drops the connection
handle — the incomplete buffer for "t1", chunk data included, is retained
verbatim, contradicting the claim that the partial chunk data is released. -/
theorem c9_counterexample :
    (connectionCloseA c9StateA).incomingFiles = c9StateA.incomingFiles
    ∧ c9StateA.incomingFiles ≠ []
    ∧ (∃ e ∈ c9StateA.incomingFiles, e.2.chunks ≠ []) := by
  refine ⟨rfl, by decide, by decide⟩

/-- C9 amended: on channel close, the variant B receiver discards every
in-flight buffer (releasing the partial chunk data), produces no artifact
(`files` is unchanged), and surfaces the event (log entry, connection flag
cleared); the variant A receiver, by contrast, only clears the connection
flag and retains all partial buffers. -/
theorem c9_amended (stB : HostB) (stA : HostA) :
    (connectionCloseB stB).incomingBuffer = []
    ∧ (connectionCloseB stB).conn = false
    ∧ (connectionCloseB stB).files = stB.files
    ∧ (connectionCloseB stB).logs = "Connection Closed" :: stB.logs
    ∧ connectionCloseA stA = { stA with conn := false } :=
  ⟨rfl, rfl, rfl, rfl, rfl⟩

-- ---------------------------------------------------------------------------
-- C7: receivedBytes bookkeeping.  Supporting lemmas.
-- ---------------------------------------------------------------------------

theorem getEntry_cons_self {β : Type} (k : String) (v : β) (m : List (String × β)) :
    getEntry ((k, v) :: m) k = some v := by
  simp [getEntry]

theorem setEntry_cons_self {β : Type} (k : String) (v w : β) (m : List (String × β)) :
    setEntry ((k, v) :: m) k w = (k, w) :: m := by
  simp [setEntry]

theorem sumLens_append (l₁ l₂ : List Bytes) :
    sumLens (l₁ ++ l₂) = sumLens l₁ + sumLens l₂ := by
  simp [sumLens]

theorem sumLens_cons (p : Bytes) (l : List Bytes) :
    sumLens (p :: l) = p.length + sumLens l := by
  simp [sumLens]

theorem sumLens_sliceChunks (file : Bytes) (c : Nat) (hc : 0 < c) :
    sumLens (sliceChunks file c 0) = file.length := by
  have h := sumLens_take_sliceChunks file c hc (sliceChunks file c 0).length 0
  rw [List.take_length] at h
  rw [h, sliceChunks_length file c hc 0]
  simp only [Nat.sub_zero]
  have h2 : file.length ≤ ((file.length + (c - 1)) / c) * c := by
    have h3 := Nat.div_add_mod (file.length + (c - 1)) c
    have h4 : (file.length + (c - 1)) % c < c := Nat.mod_lt _ hc
    have h5 : c * ((file.length + (c - 1)) / c)
        = ((file.length + (c - 1)) / c) * c := Nat.mul_comm _ _
    omega
  omega

theorem foldl_appendChunk (ps : List Bytes) :
    ∀ b : IncomingFileA, ps.foldl appendChunk b
      = { b with chunks := b.chunks ++ ps,
                 receivedBytes := b.receivedBytes + sumLens ps } := by
  induction ps with
  | nil => intro b; simp [sumLens]
  | cons p ps ih =>
    intro b
    rw [List.foldl_cons, ih]
    simp [appendChunk, sumLens]
    omega

theorem runHostA_append (st : HostA) (now : Nat) (xs ys : List MsgA) :
    runHostA st now (xs ++ ys) = runHostA (runHostA st now xs) now ys := by
  induction xs generalizing st with
  | nil => rfl
  | cons x xs ih => simp [runHostA, ih]

theorem setEntry_self_eq {β : Type} (m : List (String × β)) (k : String) (v : β)
    (h : getEntry m k = some v) : setEntry m k v = m := by
  induction m with
  | nil => simp [getEntry] at h
  | cons hd tl ih =>
    obtain ⟨k₀, v₀⟩ := hd
    by_cases hk : k₀ = k
    · subst hk
      simp [getEntry] at h
      simp [setEntry, h]
    · simp [getEntry, hk] at h
      simp [setEntry, hk, ih h]

theorem handleIncomingData_quiet_chunk (st : HostA) (now : Nat) (id : String)
    (p : Bytes) (b : IncomingFileA)
    (hb : getEntry st.incomingFiles id = some b)
    (hlu : b.lastUpdate = now)
    (hlt : b.receivedBytes + p.length < b.size) :
    handleIncomingData st now (MsgA.chunk id p)
      = { st with incomingFiles := setEntry st.incomingFiles id (appendChunk b p) } := by
  have hnothr : ¬(now - (appendChunk b p).lastUpdate > 500
      ∨ (appendChunk b p).receivedBytes = (appendChunk b p).size) := by
    push_neg
    constructor
    · simp [appendChunk, hlu]
    · simp [appendChunk]
      omega
  have hnofin : ¬((appendChunk b p).receivedBytes ≥ (appendChunk b p).size) := by
    simp [appendChunk]
    omega
  simp only [handleIncomingData, hb]
  rw [if_neg hnothr, if_neg hnofin]

theorem runHostA_quiet_chunks (now : Nat) (id : String) :
    ∀ (payloads : List Bytes) (st : HostA) (b : IncomingFileA),
      getEntry st.incomingFiles id = some b →
      b.lastUpdate = now →
      (∀ k, k < payloads.length →
        b.receivedBytes + sumLens (payloads.take (k + 1)) < b.size) →
      runHostA st now (payloads.map (fun p => MsgA.chunk id p))
        = { st with incomingFiles :=
              (setEntry st.incomingFiles id (payloads.foldl appendChunk b)) } := by
  intro payloads
  induction payloads with
  | nil =>
    intro st b hb _ _
    show st = _
    rw [List.foldl_nil, setEntry_self_eq st.incomingFiles id b hb]
  | cons p ps ih =>
    intro st b hb hlu hbound
    have hlt : b.receivedBytes + p.length < b.size := by
      have := hbound 0 (by simp)
      simpa [sumLens] using this
    show runHostA (handleIncomingData st now (MsgA.chunk id p)) now
        (ps.map (fun p => MsgA.chunk id p)) = _
    rw [handleIncomingData_quiet_chunk st now id p b hb hlu hlt]
    rw [ih _ (appendChunk b p) (getEntry_setEntry_self _ _ _)
      (by simp [appendChunk, hlu])
      (by
        intro k hk
        have := hbound (k + 1) (by simp; omega)
        simp only [List.take_succ_cons, sumLens_cons] at this
        simp [appendChunk]
        omega)]
    simp only [setEntry_setEntry, List.foldl_cons]

theorem handleIncomingData_final_chunk (st : HostA) (now : Nat) (id : String)
    (p : Bytes) (b : IncomingFileA)
    (hb : getEntry st.incomingFiles id = some b)
    (hfull : b.receivedBytes + p.length = b.size) :
    handleIncomingData st now (MsgA.chunk id p)
      = { st with
          incomingFiles := (setEntry st.incomingFiles id { appendChunk b p with lastUpdate := now, chunks := [] }),
          files := ((st.files.map (fun f => if f.id = id then { f with progress := progressPercent (appendChunk b p).receivedBytes (appendChunk b p).size } else f)).map (fun f => if f.id = id then { f with status := FileStatusA.completed, progress := 100, url := some (blobConcat (appendChunk b p).chunks) } else f)) } := by
  have heq : (appendChunk b p).receivedBytes = (appendChunk b p).size := by
    simp [appendChunk]
    omega
  have hthr : (now - (appendChunk b p).lastUpdate > 500
      ∨ (appendChunk b p).receivedBytes = (appendChunk b p).size) := Or.inr heq
  have hfin : (appendChunk b p).receivedBytes ≥ (appendChunk b p).size :=
    le_of_eq heq.symm
  simp only [handleIncomingData, hb]
  rw [if_pos hthr, if_pos hfin]
  unfold finalizeFile
  rw [getEntry_setEntry_self]
  simp only [setEntry_setEntry]

theorem lt_numChunks_iff (file : Bytes) (c : Nat) (hc : 0 < c) (j : Nat) :
    j < (sliceChunks file c 0).length ↔ j * c < file.length := by
  rw [sliceChunks_length file c hc 0]
  simp only [Nat.sub_zero]
  constructor
  · intro h
    have h2 : j + 1 ≤ (file.length + (c - 1)) / c := h
    have h3 : (j + 1) * c ≤ file.length + (c - 1) := by
      calc (j + 1) * c ≤ ((file.length + (c - 1)) / c) * c :=
            Nat.mul_le_mul_right c h2
        _ ≤ file.length + (c - 1) := Nat.div_mul_le_self _ _
    have h4 : (j + 1) * c = j * c + c := by ring
    omega
  · intro h
    have h4 : (j + 1) * c = j * c + c := by ring
    have h3 : (j + 1) * c ≤ file.length + (c - 1) := by omega
    exact (Nat.le_div_iff_mul_le hc).mpr h3

theorem runHostA_singleton (st : HostA) (now : Nat) (m : MsgA) :
    runHostA st now [m] = handleIncomingData st now m := rfl

theorem runTransferA (file : Bytes) (c : Nat) (id name mime : String) (now : Nat)
    (hc : 0 < c) (hN : 0 < file.length) :
    runHostA initialHostA now (transferMsgsA file c id name mime)
      = { incomingFiles := [(id, { name := name, size := file.length, mime := mime, receivedBytes := file.length, chunks := [], lastUpdate := now })],
          files := [{ id := id, name := name, progress := 100, status := FileStatusA.completed, url := some file }],
          sentMsgs := [MsgA.ack id],
          clogs := ["Header received. Sending ACK."],
          conn := true } := by
  have hne : sliceChunks file c 0 ≠ [] := (sliceChunks_ne_nil_iff file c hc 0).mpr hN
  have hsum : sumLens (sliceChunks file c 0) = file.length := sumLens_sliceChunks file c hc
  have hsplit : (sliceChunks file c 0).dropLast ++ [(sliceChunks file c 0).getLast hne]
      = sliceChunks file c 0 := List.dropLast_append_getLast hne
  have hsum2 : sumLens ((sliceChunks file c 0).dropLast)
        + ((sliceChunks file c 0).getLast hne).length = file.length := by
    have h := congrArg sumLens hsplit
    rw [sumLens_append, sumLens_cons] at h
    simp only [sumLens, List.map_nil, List.sum_nil] at h
    simp only [sumLens] at h hsum ⊢
    omega
  have hflat : blobConcat (sliceChunks file c 0) = file := by
    unfold blobConcat
    rw [sliceChunks_flatten file c hc 0]
    exact List.drop_zero file
  have step0 : runHostA initialHostA now (transferMsgsA file c id name mime)
      = runHostA
        { incomingFiles := [(id, { name := name, size := file.length, mime := mime, receivedBytes := 0, chunks := [], lastUpdate := now })],
          files := [{ id := id, name := name, progress := 0, status := FileStatusA.receiving, url := none }],
          sentMsgs := [MsgA.ack id], clogs := ["Header received. Sending ACK."], conn := true }
        now ((sliceChunks file c 0).map (fun p => MsgA.chunk id p)) := rfl
  rw [step0, ← hsplit, List.map_append, runHostA_append]
  rw [runHostA_quiet_chunks now id ((sliceChunks file c 0).dropLast) _
      { name := name, size := file.length, mime := mime, receivedBytes := 0, chunks := [], lastUpdate := now }
      (getEntry_cons_self _ _ _) rfl
      (by
        intro k hk
        have hlen : ((sliceChunks file c 0).dropLast).length
            = (sliceChunks file c 0).length - 1 := List.length_dropLast _
        have htk : (sliceChunks file c 0).take (k + 1)
            = ((sliceChunks file c 0).dropLast).take (k + 1) := by
          conv_lhs => rw [← hsplit]
          rw [List.take_append_eq_append_take]
          have h0 : k + 1 - ((sliceChunks file c 0).dropLast).length = 0 := by omega
          rw [h0]
          simp
        have hmin := sumLens_take_sliceChunks file c hc (k + 1) 0
        have hklt : (k + 1) * c < file.length := by
          have hkn : k + 1 < (sliceChunks file c 0).length := by omega
          exact (lt_numChunks_iff file c hc (k + 1)).mp hkn
        show 0 + sumLens (((sliceChunks file c 0).dropLast).take (k + 1)) < file.length
        rw [← htk, hmin]
        simp only [Nat.sub_zero]
        omega)]
  rw [foldl_appendChunk, setEntry_cons_self]
  simp only [List.nil_append, Nat.zero_add]
  rw [List.map_cons, List.map_nil, runHostA_singleton]
  rw [handleIncomingData_final_chunk _ now id _ _ (getEntry_cons_self _ _ _)
      (by
        show sumLens ((sliceChunks file c 0).dropLast)
            + ((sliceChunks file c 0).getLast hne).length = file.length
        exact hsum2)]
  simp only [appendChunk, setEntry_cons_self, List.map_cons, List.map_nil]
  rw [hsplit, hflat]
  simp [hsum2]

theorem runTransferA_midway (file : Bytes) (c : Nat) (id name mime : String)
    (now : Nat) (hc : 0 < c) (j : Nat) (hj : j < (sliceChunks file c 0).length) :
    runHostA initialHostA now
        (MsgA.header id name file.length mime
          :: ((sliceChunks file c 0).take j).map (fun p => MsgA.chunk id p))
      = { incomingFiles := [(id, { name := name, size := file.length, mime := mime, receivedBytes := j * c, chunks := (sliceChunks file c 0).take j, lastUpdate := now })],
          files := [{ id := id, name := name, progress := 0, status := FileStatusA.receiving, url := none }],
          sentMsgs := [MsgA.ack id],
          clogs := ["Header received. Sending ACK."],
          conn := true } := by
  have hjc : j * c < file.length := (lt_numChunks_iff file c hc j).mp hj
  have step0 : runHostA initialHostA now
      (MsgA.header id name file.length mime
        :: ((sliceChunks file c 0).take j).map (fun p => MsgA.chunk id p))
      = runHostA
        { incomingFiles := [(id, { name := name, size := file.length, mime := mime, receivedBytes := 0, chunks := [], lastUpdate := now })],
          files := [{ id := id, name := name, progress := 0, status := FileStatusA.receiving, url := none }],
          sentMsgs := [MsgA.ack id], clogs := ["Header received. Sending ACK."], conn := true }
        now (((sliceChunks file c 0).take j).map (fun p => MsgA.chunk id p)) := rfl
  rw [step0]
  rw [runHostA_quiet_chunks now id ((sliceChunks file c 0).take j) _
      { name := name, size := file.length, mime := mime, receivedBytes := 0, chunks := [], lastUpdate := now }
      (getEntry_cons_self _ _ _) rfl
      (by
        intro k hk
        have hlenj : ((sliceChunks file c 0).take j).length ≤ j :=
          List.length_take_le j _
        have htt : (((sliceChunks file c 0).take j).take (k + 1))
            = (sliceChunks file c 0).take (k + 1) := by
          rw [List.take_take]
          congr 1
          omega
        show 0 + sumLens (((sliceChunks file c 0).take j).take (k + 1)) < file.length
        rw [htt, sumLens_take_sliceChunks file c hc (k + 1) 0]
        simp only [Nat.sub_zero]
        have h1 : (k + 1) * c ≤ j * c := Nat.mul_le_mul_right c (by omega)
        omega)]
  rw [foldl_appendChunk, setEntry_cons_self]
  have hsl : sumLens ((sliceChunks file c 0).take j) = j * c := by
    rw [sumLens_take_sliceChunks file c hc j 0]
    simp only [Nat.sub_zero]
    omega
  simp [hsl]

theorem handleIncomingData_unknown_chunk (st : HostA) (now : Nat) (id : String)
    (payload : Bytes) (hq : getEntry st.incomingFiles id = none) :
    handleIncomingData st now (MsgA.chunk id payload) = st := by
  simp only [handleIncomingData, hq]

theorem handleIncomingData_chunk_received (st : HostA) (now : Nat) (cid : String)
    (payload : Bytes) (meta : IncomingFileA)
    (hq : getEntry st.incomingFiles cid = some meta) :
    ∃ X : IncomingFileA,
      (handleIncomingData st now (MsgA.chunk cid payload)).incomingFiles
        = setEntry st.incomingFiles cid X
      ∧ X.receivedBytes = meta.receivedBytes + payload.length := by
  simp only [handleIncomingData, hq]
  by_cases hthr : (now - (appendChunk meta payload).lastUpdate > 500
      ∨ (appendChunk meta payload).receivedBytes = (appendChunk meta payload).size)
  · rw [if_pos hthr]
    by_cases hfin : (appendChunk meta payload).receivedBytes
        ≥ (appendChunk meta payload).size
    · rw [if_pos hfin]
      refine ⟨{ appendChunk meta payload with lastUpdate := now, chunks := [] },
        ?_, by simp [appendChunk]⟩
      unfold finalizeFile
      rw [getEntry_setEntry_self]
      simp only [setEntry_setEntry]
    · rw [if_neg hfin]
      exact ⟨{ appendChunk meta payload with lastUpdate := now }, rfl,
        by simp [appendChunk]⟩
  · rw [if_neg hthr]
    by_cases hfin : (appendChunk meta payload).receivedBytes
        ≥ (appendChunk meta payload).size
    · rw [if_pos hfin]
      refine ⟨{ appendChunk meta payload with chunks := [] }, ?_,
        by simp [appendChunk]⟩
      unfold finalizeFile
      rw [getEntry_setEntry_self]
      simp only [setEntry_setEntry]
    · rw [if_neg hfin]
      exact ⟨appendChunk meta payload, rfl, by simp [appendChunk]⟩

theorem handleIncomingData_chunk_monotone (st : HostA) (now : Nat)
    (cid id : String) (payload : Bytes) (b b' : IncomingFileA)
    (hb : getEntry st.incomingFiles id = some b)
    (hb' : getEntry (handleIncomingData st now
        (MsgA.chunk cid payload)).incomingFiles id = some b') :
    b.receivedBytes ≤ b'.receivedBytes := by
  cases hq : getEntry st.incomingFiles cid with
  | none =>
    rw [handleIncomingData_unknown_chunk st now cid payload hq] at hb'
    rw [hb] at hb'
    cases hb'
    exact le_refl _
  | some meta =>
    obtain ⟨X, hX, hXr⟩ := handleIncomingData_chunk_received st now cid payload meta hq
    rw [hX] at hb'
    by_cases hid : id = cid
    · subst hid
      rw [getEntry_setEntry_self] at hb'
      cases hb'
      rw [hb] at hq
      cases hq
      omega
    · rw [getEntry_setEntry_ne _ _ _ _ hid] at hb'
      rw [hb] at hb'
      cases hb'
      exact le_refl _

/-- The variant A receiver state after announcing a zero-byte transfer
(totalSizeBytes = 0); the conforming sender emits no chunks for it. -/
def c7ZeroState : HostA :=
  runHostA initialHostA 0 [MsgA.header "t1" "empty.bin" 0 "application/x-bin"]

/-- C7 counterexample: for the zero-byte transfer, receivedBytes equals
totalSizeBytes (both are 0) from the moment the buffer is created, yet the
transfer never reaches COMPLETE — the UI card stays `receiving` forever —
so receivedBytes does not equal totalSizeBytes "exactly once, at COMPLETE". -/
theorem c7_counterexample :
    (∃ b, getEntry c7ZeroState.incomingFiles "t1" = some b
        ∧ b.receivedBytes = b.size)
    ∧ (∀ f ∈ c7ZeroState.files, f.status ≠ FileStatusA.completed) := by
  constructor
  · exact ⟨{ name := "empty.bin", size := 0, mime := "application/x-bin",
             receivedBytes := 0, chunks := [], lastUpdate := 0 },
      by decide, by decide⟩
  · decide

/-- C7 amended: (1) each chunk-append operation preserves the invariant
receivedBytes = sum of buffered chunk lengths (finalization later releases
the chunk list while keeping receivedBytes); (2) receivedBytes of every
buffer is non-decreasing across chunk messages; (3) for a conforming
transfer of N > 0 bytes, after the announce and any proper prefix of the
chunks the buffer satisfies the invariant, has receivedBytes strictly below
totalSizeBytes, and no UI card is COMPLETE, while after the final chunk
receivedBytes equals totalSizeBytes and the transfer is COMPLETE with the
reassembled artifact.  (For a zero-byte transfer, receivedBytes equals
totalSizeBytes from creation and COMPLETE is never reached.) -/
theorem c7_amended :
    (∀ (b : IncomingFileA) (p : Bytes),
      b.receivedBytes = sumLens b.chunks →
      (appendChunk b p).receivedBytes = sumLens (appendChunk b p).chunks)
    ∧ (∀ (st : HostA) (now : Nat) (cid id : String) (payload : Bytes)
        (b b' : IncomingFileA),
      getEntry st.incomingFiles id = some b →
      getEntry (handleIncomingData st now
          (MsgA.chunk cid payload)).incomingFiles id = some b' →
      b.receivedBytes ≤ b'.receivedBytes)
    ∧ (∀ (file : Bytes) (c : Nat) (id name mime : String) (now : Nat),
      0 < c → 0 < file.length →
      (∀ j, j < (sliceChunks file c 0).length →
        ∃ b, getEntry (runHostA initialHostA now
              (MsgA.header id name file.length mime
                :: ((sliceChunks file c 0).take j).map
                    (fun p => MsgA.chunk id p))).incomingFiles id = some b
          ∧ b.receivedBytes = sumLens b.chunks
          ∧ b.receivedBytes < file.length
          ∧ ∀ f ∈ (runHostA initialHostA now
              (MsgA.header id name file.length mime
                :: ((sliceChunks file c 0).take j).map
                    (fun p => MsgA.chunk id p))).files,
              f.status = FileStatusA.receiving)
      ∧ (∃ b, getEntry (runHostA initialHostA now
            (transferMsgsA file c id name mime)).incomingFiles id = some b
          ∧ b.receivedBytes = file.length)
      ∧ ∃ f ∈ (runHostA initialHostA now
            (transferMsgsA file c id name mime)).files,
          f.id = id ∧ f.status = FileStatusA.completed ∧ f.url = some file) := by
  refine ⟨?_, handleIncomingData_chunk_monotone, ?_⟩
  · intro b p h
    simp [appendChunk, sumLens] at h ⊢
    omega
  · intro file c id name mime now hc hN
    refine ⟨?_, ?_, ?_⟩
    · intro j hj
      rw [runTransferA_midway file c id name mime now hc j hj]
      refine ⟨_, getEntry_cons_self _ _ _, ?_, ?_, ?_⟩
      · show j * c = sumLens ((sliceChunks file c 0).take j)
        rw [sumLens_take_sliceChunks file c hc j 0]
        have hjc : j * c < file.length := (lt_numChunks_iff file c hc j).mp hj
        simp only [Nat.sub_zero]
        omega
      · show j * c < file.length
        exact (lt_numChunks_iff file c hc j).mp hj
      · intro f hf
        simp only [List.mem_singleton] at hf
        subst hf
        rfl
    · rw [runTransferA file c id name mime now hc hN]
      exact ⟨_, getEntry_cons_self _ _ _, rfl⟩
    · rw [runTransferA file c id name mime now hc hN]
      exact ⟨_, List.mem_singleton_self _, rfl, rfl, rfl⟩

theorem c7_amended_witness :
    0 < 2 ∧ 0 < ([1, 2, 3] : Bytes).length
    ∧ (∃ b, getEntry (runHostA initialHostA 0
          (transferMsgsA [1, 2, 3] 2 "t1" "f.bin" "m")).incomingFiles "t1" = some b
        ∧ b.receivedBytes = ([1, 2, 3] : Bytes).length) :=
  ⟨by decide, by decide,
    (c7_amended.2.2 [1, 2, 3] 2 "t1" "f.bin" "m" 0 (by decide) (by decide)).2.1⟩

-- ---------------------------------------------------------------------------
-- C10: zero-byte transfers never produce an artifact.
-- ---------------------------------------------------------------------------

/-- Whether a variant A message is a chunk message. -/
def isChunkMsg : MsgA → Bool
  | MsgA.chunk _ _ => true
  | _ => false

theorem finishFile_empty (st : HostB) (fileId : String) (b : BufferB)
    (hb : getEntry st.incomingBuffer fileId = some b) (hc : b.chunks = []) :
    finishFile st fileId
      = (addLog st ("CRITICAL: Buffer empty for " ++ fileId
          ++ ". Transfer failed."), none) := by
  simp [finishFile, hb, hc, addLog]

theorem runHostA_no_chunk_no_artifact (now : Nat) :
    ∀ (msgs : List MsgA) (st : HostA),
      (∀ m ∈ msgs, isChunkMsg m = false) →
      (∀ f ∈ st.files, f.status = FileStatusA.receiving ∧ f.url = none) →
      ∀ f ∈ (runHostA st now msgs).files,
        f.status = FileStatusA.receiving ∧ f.url = none := by
  intro msgs
  induction msgs with
  | nil => intro st _ hst; exact hst
  | cons m ms ih =>
    intro st hnc hst
    apply ih (handleIncomingData st now m)
    · intro m' hm'
      exact hnc m' (List.mem_cons_of_mem m hm')
    · cases m with
      | header i n sz mi =>
        intro g hg
        simp only [handleIncomingData] at hg
        rcases List.mem_cons.mp hg with h1 | h2
        · subst h1
          exact ⟨rfl, rfl⟩
        · exact hst g h2
      | ack a =>
        intro g hg
        exact hst g (by simpa [handleIncomingData] using hg)
      | chunk i p =>
        have := hnc (MsgA.chunk i p) (List.mem_cons_self _ _)
        simp [isChunkMsg] at this

/-- C10: a zero-byte transfer never produces an artifact and is never
reported completed. In the ACK-gated variant the sender emits zero chunks
for an empty file, and any run whose messages contain no chunk message
leaves every UI card `receiving` with no object URL (finalization lives only
in the chunk handler). In the start/chunk/end variant the zero-byte run is
exactly file-start followed by file-end, and `finishFile` treats the empty
chunk list as a failed transfer: no file entry is created and the CRITICAL
log line is emitted. -/
theorem c10_zero_byte_transfer :
    (∀ c, 0 < c → sliceChunks ([] : Bytes) c 0 = [])
    ∧ (∀ (now : Nat) (msgs : List MsgA) (st : HostA),
      (∀ m ∈ msgs, isChunkMsg m = false) →
      (∀ f ∈ st.files, f.status = FileStatusA.receiving ∧ f.url = none) →
      ∀ f ∈ (runHostA st now msgs).files,
        f.status = FileStatusA.receiving ∧ f.url = none)
    ∧ (∀ (fileId name mime : String) (sched : List Bool),
      (runHostB initialHostB (sendFileB [] fileId name mime sched)).files = []
      ∧ ("CRITICAL: Buffer empty for " ++ fileId ++ ". Transfer failed.")
          ∈ (runHostB initialHostB (sendFileB [] fileId name mime sched)).logs) := by
  refine ⟨?_, runHostA_no_chunk_no_artifact, ?_⟩
  · intro c hc
    rw [sliceChunks]
    rw [dif_neg (by simp)]
  · intro fileId name mime sched
    have hend : sendNextChunk [] fileId 0 sched = [MsgB.fileEnd fileId] := by
      cases sched with
      | nil =>
        rw [sendNextChunk]
        rw [if_pos (by simp)]
      | cons b rest =>
        rw [sendNextChunk]
        rw [if_pos (by simp)]
    have hmsgs : sendFileB [] fileId name mime sched
        = [MsgB.fileStart fileId name 0 mime, MsgB.fileEnd fileId] := by
      unfold sendFileB
      rw [hend]
      rfl
    rw [hmsgs]
    have hrun : runHostB initialHostB
          [MsgB.fileStart fileId name 0 mime, MsgB.fileEnd fileId]
        = (finishFile (addLog { incomingBuffer := [(fileId, { name := name, size := 0, mime := mime, received := 0, chunks := [], lastLog := 0 })], files := [], logs := ["Signal: FILE START received for " ++ name], conn := true } ("Signal: FILE END received for " ++ fileId)) fileId).1 := rfl
    rw [hrun]
    rw [finishFile_empty _ _ _ (getEntry_cons_self _ _ _) rfl]
    exact ⟨rfl, List.mem_cons_self _ _⟩

theorem c10_zero_byte_transfer_witness :
    (∀ m ∈ [MsgA.header "z" "e.txt" 0 "text/plain"], isChunkMsg m = false)
    ∧ (∀ f ∈ initialHostA.files,
        f.status = FileStatusA.receiving ∧ f.url = none)
    ∧ (∀ f ∈ (runHostA initialHostA 0
          [MsgA.header "z" "e.txt" 0 "text/plain"]).files,
        f.status = FileStatusA.receiving ∧ f.url = none) :=
  ⟨by decide, by decide,
    c10_zero_byte_transfer.2.1 0 [MsgA.header "z" "e.txt" 0 "text/plain"]
      initialHostA (by decide) (by decide)⟩
